import Mathlib

/-!
Shallow embedding of `src/compile.ts` of css-select: the selector-to-predicate
compiler.  Compiled predicates are modelled syntactically (an inductive `CQ`),
so that the reference-identity checks the code performs against the two
`boolbase` sentinels (`trueFunc`, `falseFunc`) become constructor tests, and a
freshly built closure is a non-sentinel constructor.  External collaborators
(the parser, the sorting pass `sort.ts`, the leaf-builder table `general.ts`)
enter as parameters or spec-modelled definitions, as noted on each definition.
-/

namespace CssSelect

/-- A tree node handed to compiled predicates.  `placeholder` models the
process-wide `PLACEHOLDER_ELEMENT = {}` object of `compile.ts` (compared by
reference identity in the source, hence a dedicated constructor). -/
inductive Elem where
  | placeholder
  | node (id : Nat)
deriving DecidableEq

/-- The tree-adapter capability set consumed by the compiler
(`options.adapter`): tag test, parent/children access, existential search. -/
structure Adapter where
  isTagFn : Elem → Bool
  getParentFn : Elem → Option Elem
  getChildrenFn : Elem → List Elem
  existsOneFn : (Elem → Bool) → List Elem → Bool

mutual

/-- Selector AST node, after `css-what`'s parse.  Traversal kinds and filter
kinds; a `pseudo` node carries a name and its argument. -/
inductive Selector where
  | universal
  | tag (name : String)
  | attrib (payload : String)
  | pseudo (name : String) (data : PseudoArg)
  | descendant
  | flexibleDescendant
  | child
  | parent
  | sibling
  | adjacent

/-- Argument of a pseudo node: either a nested selector-group list (an array
in JS, `Array.isArray(t.data)` true) or a non-array payload (string or null). -/
inductive PseudoArg where
  | nullArg
  | groups (gs : SelectorGroups)

/-- Nested selector-group list (list of comma-separated alternatives) owned by
a recursive pseudo node. -/
inductive SelectorGroups where
  | nil
  | cons (g : SelectorChain) (gs : SelectorGroups)

/-- One nested selector group: a sequence of selector nodes. -/
inductive SelectorChain where
  | nil
  | cons (s : Selector) (g : SelectorChain)

end

/-- The nested groups as a plain list. -/
def SelectorGroups.toList : SelectorGroups → List SelectorChain
  | .nil => []
  | .cons g gs => g :: gs.toList

/-- One nested chain as a plain list of nodes. -/
def SelectorChain.toList : SelectorChain → List Selector
  | .nil => []
  | .cons s g => s :: g.toList

/-- Modelled from the spec: `procedure.ts` is not under `src/`.  Per §4.1 the
traversal classifier is total over node kinds and the traversal set (negative
weights) is exactly the combinators — descendant, child, sibling, adjacent —
together with the internal flexible-descendant marker (and the experimental
parent combinator). -/
def isTraversal : Selector → Bool
  | .descendant => true
  | .flexibleDescendant => true
  | .child => true
  | .parent => true
  | .sibling => true
  | .adjacent => true
  | _ => false

/-- `containsTraversal` of `compile.ts`: does a group contain a traversal. -/
def containsTraversal (t : List Selector) : Bool :=
  t.any isTraversal

/-- Is this node the plain descendant combinator (`t.type === "descendant"`). -/
def isDescendantTok : Selector → Bool
  | .descendant => true
  | _ => false

/-- Is this node the adjacent combinator. -/
def isAdjacentTok : Selector → Bool
  | .adjacent => true
  | _ => false

/-- Is this node the sibling combinator. -/
def isSiblingTok : Selector → Bool
  | .sibling => true
  | _ => false

/-- Is this node a pseudo node named `scope`
(`first.type === "pseudo" && first.name === "scope"`). -/
def isScopePseudoTok : Selector → Bool
  | .pseudo name _ => name = "scope"
  | _ => false

mutual

/-- `includesScopePseudo` of `compile.ts`: a node is or recursively contains a
`:scope` pseudo-selector (descending into array-shaped pseudo arguments). -/
def includesScopePseudo : Selector → Bool
  | .pseudo name data =>
      name = "scope" ||
        (match data with
         | .groups gs => groupsHaveScope gs
         | .nullArg => false)
  | _ => false

/-- `t.data.some(data => data.some(includesScopePseudo))`, groups part. -/
def groupsHaveScope : SelectorGroups → Bool
  | .nil => false
  | .cons g gs => chainHasScope g || groupsHaveScope gs

/-- `data.some(includesScopePseudo)` over one nested chain. -/
def chainHasScope : SelectorChain → Bool
  | .nil => false
  | .cons s g => includesScopePseudo s || chainHasScope g

end

/-- Specification-level characterisation: the node is, or recursively contains
(inside nested pseudo-class selector arguments), a `:scope` pseudo-selector. -/
inductive ScopeIn : Selector → Prop where
  | scopeNode (d : PseudoArg) : ScopeIn (Selector.pseudo "scope" d)
  | nested (name : String) (gs : SelectorGroups) (g : SelectorChain) (s : Selector)
      (hg : g ∈ gs.toList) (hs : s ∈ g.toList) (h : ScopeIn s) :
      ScopeIn (Selector.pseudo name (PseudoArg.groups gs))

/-- The `DESCENDANT_TOKEN` constant of `compile.ts`. -/
def DESCENDANT_TOKEN : Selector := Selector.descendant

/-- The `FLEXIBLE_DESCENDANT_TOKEN` constant of `compile.ts`. -/
def FLEXIBLE_DESCENDANT_TOKEN : Selector := Selector.flexibleDescendant

/-- The `SCOPE_TOKEN` constant of `compile.ts` (`{type: "pseudo", name:
"scope", data: null}`). -/
def SCOPE_TOKEN : Selector := Selector.pseudo "scope" PseudoArg.nullArg

/-- A JS value occurring as an element of a (normalised) context array: either
a tree element or a nested array (produced when `compileToken` wraps an
array-valued `options.context` in a singleton array). -/
inductive CtxVal where
  | elem (e : Elem)
  | arr (vs : List CtxVal)

/-- A JS context value as it flows through the compiler: either a bare single
element (not an array) or an array of values. -/
inductive NormCtx where
  | bareElem (e : Elem)
  | arrayCtx (vs : List CtxVal)

/-- `Array.isArray(context)` on an optional context value. -/
def isArrayCtx : Option NormCtx → Bool
  | some (NormCtx.arrayCtx _) => true
  | _ => false

/-- The context value as a single array member (used by the `context =
[context]` wrap). -/
def asCtxVal : NormCtx → CtxVal
  | .bareElem e => CtxVal.elem e
  | .arrayCtx vs => CtxVal.arr vs

/-- `e === PLACEHOLDER_ELEMENT` on a context-array member. -/
def isPlaceholderVal : CtxVal → Bool
  | .elem Elem.placeholder => true
  | _ => false

/-- `!!adapter.getParent(e)` on a context-array member.  A nested array is not
a tree node, so the adapter's parent lookup yields nothing for it. -/
def ctxParentTruthy (a : Adapter) : CtxVal → Bool
  | .elem e => (a.getParentFn e).isSome
  | .arr _ => false

/-- A compiled query value, syntactically.  `trueFunc`/`falseFunc` are the two
process-wide `boolbase` sentinels (reference identity = constructor equality);
every other constructor is a freshly allocated closure of `compile.ts`:
`base` from `wrap`, `combine` from `reduceRules`, `ruleApp` an application of
an external leaf builder, `notC` from `filters.not`, and `hasChild` /
`hasCtx` / `hasPlain` the three closures of `filters.has` (`hasCtx` is the
variant that writes the tested element into the shared one-slot context
before the existential child search; `hasPlain` the variant without a slot). -/
inductive CQ where
  | trueFunc
  | falseFunc
  | base (next : CQ)
  | combine (a b : CQ)
  | ruleApp (rule : Selector) (previous : CQ)
  | notC (func next : CQ)
  | hasChild (next : CQ)
  | hasCtx (func next : CQ)
  | hasPlain (func next : CQ)

/-- `x === falseFunc`. -/
def isFalseFunc : CQ → Bool
  | .falseFunc => true
  | _ => false

/-- `x === trueFunc`. -/
def isTrueFunc : CQ → Bool
  | .trueFunc => true
  | _ => false

/-- The compilation options record (`InternalOptions`): adapter, xml and
strict flags, optional root-predicate override, optional caller context. -/
structure InternalOptions where
  adapter : Adapter
  xmlMode : Bool
  strict : Bool
  rootFunc : Option CQ
  context : Option NormCtx

/-- The external type-keyed leaf-builder dispatch table (`general.ts`, an
external collaborator): given the rule, the running predicate and the
compilation environment, produce the next predicate.  Kept abstract; theorems
quantify over it. -/
abbrev RulesTable := Selector → CQ → InternalOptions → Option NormCtx → CQ

/-- The external rule-reordering pass (`sort.ts`, an external collaborator),
applied to each group before absolutizing.  Kept abstract. -/
abbrev SortFn := List Selector → List Selector

/-- `(options && options.rootFunc) || trueFunc`: the start value of the
rule-chain fold (function values are always truthy). -/
def rootOrTrue (options : InternalOptions) : CQ :=
  options.rootFunc.getD CQ.trueFunc

/-- One step of the `compileRules` fold:
`previous === falseFunc ? falseFunc : Rules[rule.type](previous, rule, options, context)`. -/
def ruleStep (R : RulesTable) (options : InternalOptions) (ctx : Option NormCtx)
    (previous : CQ) (rule : Selector) : CQ :=
  if isFalseFunc previous then CQ.falseFunc else R rule previous options ctx

/-- `compileRules` of `compile.ts`: fold one group's node sequence, left to
right, from the root predicate (or the always-true sentinel). -/
def compileRules (R : RulesTable) (rules : List Selector)
    (options : InternalOptions) (ctx : Option NormCtx) : CQ :=
  rules.foldl (ruleStep R options ctx) (rootOrTrue options)

/-- `reduceRules` of `compile.ts`: OR-reduction with sentinel short-circuits. -/
def reduceRules (a b : CQ) : CQ :=
  if isFalseFunc b || isTrueFunc a then a
  else if isFalseFunc a || isTrueFunc b then b
  else CQ.combine a b

/-- The `hasContext` test of `absolutize`:
`!!context && !!context.length && context.every(e => e === PLACEHOLDER_ELEMENT || !!adapter.getParent(e))`
(a bare non-array value has no `.length`, hence fails the second conjunct). -/
def hasContextB (a : Adapter) : Option NormCtx → Bool
  | none => false
  | some (NormCtx.bareElem _) => false
  | some (NormCtx.arrayCtx vs) =>
      !vs.isEmpty && vs.all (fun v => isPlaceholderVal v || ctxParentTruthy a v)

/-- `t.length > 0 && isTraversal(t[0]) && t[0].type !== "descendant"`. -/
def startsWithNonDescTraversal : List Selector → Bool
  | [] => false
  | t :: _ => isTraversal t && !isDescendantTok t

/-- The per-group body of `absolutize`'s `forEach`: the first branch falls
through to the `:scope` unshift, the second unshifts the descendant marker
first, the third returns the group unchanged. -/
def absolutizeGroup (hasContext : Bool) (t : List Selector) : List Selector :=
  if startsWithNonDescTraversal t then SCOPE_TOKEN :: t
  else if hasContext && !t.any includesScopePseudo then
    SCOPE_TOKEN :: DESCENDANT_TOKEN :: t
  else t

/-- `absolutize` of `compile.ts` (the in-place mutation rendered as a map). -/
def absolutize (token : List (List Selector)) (options : InternalOptions)
    (context : Option NormCtx) : List (List Selector) :=
  token.map (absolutizeGroup (hasContextB options.adapter context))

/-- The context value used by `compileToken` after
`context = (options && options.context) || context` and
`if (context && !isArrayContext) context = [context]`, where `isArrayContext`
is `Array.isArray` of the original `context` argument. -/
def normalizedCtx (options : InternalOptions) (context : Option NormCtx) :
    Option NormCtx :=
  let merged := match options.context with
    | some c => some c
    | none => context
  match merged with
  | none => none
  | some c =>
      if isArrayCtx context then some c else some (NormCtx.arrayCtx [asCtxVal c])

/-- The token as seen by `compileToken`'s compilation loop: empty groups
filtered out, each group sorted by the external pass, then absolutized. -/
def processedToken (sr : SortFn) (token : List (List Selector))
    (options : InternalOptions) (context : Option NormCtx) :
    List (List Selector) :=
  absolutize ((token.filter (fun t => t.length > 0)).map sr) options
    (normalizedCtx options context)

/-- The group mutation of `compileToken`'s loop: when the first two nodes are
a `:scope` pseudo and, under an array context argument, a plain descendant,
substitute the flexible-descendant marker (`rules[1] = FLEXIBLE_DESCENDANT_TOKEN`). -/
def adjustGroup (isArrayContext : Bool) (rules : List Selector) : List Selector :=
  match rules with
  | first :: second :: rest =>
      if !isScopePseudoTok first then rules
      else if isArrayContext && isDescendantTok second then
        first :: FLEXIBLE_DESCENDANT_TOKEN :: rest
      else rules
  | _ => rules

/-- The flag assignment of `compileToken`'s loop: the first two nodes are a
`:scope` pseudo followed (outside of the flexible-descendant branch) by an
adjacent or sibling combinator. -/
def groupFlag (isArrayContext : Bool) (rules : List Selector) : Bool :=
  match rules with
  | first :: second :: _ =>
      if !isScopePseudoTok first then false
      else if isArrayContext && isDescendantTok second then false
      else if isAdjacentTok second || isSiblingTok second then true
      else false
  | _ => false

/-- A compiled-predicate function object: the callable closure together with
the optional `shouldTestNextSiblings` property attached to that object
(`none` when the property was never assigned). -/
@[ext]
structure CompiledQueryFn where
  query : CQ
  shouldTestNextSiblings : Option Bool

/-- `compileToken` of `compile.ts`: filter, sort, absolutize, per-group
adjustment and flag accumulation, per-group rule-chain compilation, and the
OR-reduction from the never-matches sentinel; the accumulated flag is
attached to the returned function object. -/
def compileToken (R : RulesTable) (sr : SortFn) (token : List (List Selector))
    (options : InternalOptions) (context : Option NormCtx) : CompiledQueryFn :=
  let tok := processedToken sr token options context
  let iac := isArrayCtx context
  let ctx := normalizedCtx options context
  ⟨(tok.map (fun rules => compileRules R (adjustGroup iac rules) options ctx)).foldl
      reduceRules CQ.falseFunc,
    some (tok.any (groupFlag iac))⟩

/-- `compileUnsafe` of `compile.ts` (parsing is external: the token is the
parse of the selector string). -/
def compileUnsafe (R : RulesTable) (sr : SortFn) (token : List (List Selector))
    (options : InternalOptions) (context : Option NormCtx) : CompiledQueryFn :=
  compileToken R sr token options context

/-- `wrap` of `compile.ts`: a fresh closure guarding the inner predicate with
the adapter's tag test. -/
def wrap (next : CQ) (_options : InternalOptions) : CQ :=
  CQ.base next

/-- The public `compile` entry point: compile, then wrap.  The returned value
is the fresh `base` closure of `wrap`, a plain function object with no
`shouldTestNextSiblings` property assigned to it. -/
def compile (R : RulesTable) (sr : SortFn) (token : List (List Selector))
    (options : InternalOptions) (context : Option NormCtx) : CompiledQueryFn :=
  ⟨wrap (compileUnsafe R sr token options context).query options, none⟩

/-- The error surface of this module: the strict-mode violation thrown by
`filters.not` for a complex argument. -/
inductive CompileError where
  | strictModeViolation
deriving DecidableEq

/-- The derived option set used by the recursive pseudo-class compilers:
`{xmlMode: !!options.xmlMode, strict: !!options.strict, adapter:
options.adapter}` — no root-predicate override, no context field. -/
def derivedOpts (options : InternalOptions) : InternalOptions :=
  ⟨options.adapter, options.xmlMode, options.strict, none, none⟩

/-- `filters.not` of `compile.ts`: derive restricted options, enforce the
strict-mode restriction, compile the argument with the (forwarded) context,
and simplify against the sentinels. -/
def filtersNot (R : RulesTable) (sr : SortFn) (next : CQ)
    (token : List (List Selector)) (options : InternalOptions)
    (context : Option NormCtx) : Except CompileError CQ :=
  let opts := derivedOpts options
  if opts.strict && (decide (token.length > 1) || token.any containsTraversal) then
    Except.error CompileError.strictModeViolation
  else
    let func := (compileToken R sr token opts context).query
    if isFalseFunc func then Except.ok next
    else if isTrueFunc func then Except.ok CQ.falseFunc
    else Except.ok (CQ.notC func next)

/-- The context allocated by `filters.has`:
`token.some(containsTraversal) ? [PLACEHOLDER_ELEMENT] : undefined`. -/
def hasAllocatedContext (token : List (List Selector)) : Option NormCtx :=
  if token.any containsTraversal then
    some (NormCtx.arrayCtx [CtxVal.elem Elem.placeholder])
  else none

/-- `filters.has` of `compile.ts`: derive restricted options, allocate the
one-slot context exactly when the argument contains a traversal, compile the
argument, simplify against the sentinels, otherwise wrap the argument with
the tag guard and build the slot-writing or plain existential closure. -/
def filtersHas (R : RulesTable) (sr : SortFn) (next : CQ)
    (token : List (List Selector)) (options : InternalOptions) : CQ :=
  let opts := derivedOpts options
  let context := hasAllocatedContext token
  let func := (compileToken R sr token opts context).query
  if isFalseFunc func then CQ.falseFunc
  else if isTrueFunc func then CQ.hasChild next
  else
    let func := wrap func options
    match context with
    | some _ => CQ.hasCtx func next
    | none => CQ.hasPlain func next

/-- `filters.matches` of `compile.ts`: derive restricted options but
propagate the outer continuation as the nested root-predicate override. -/
def filtersMatches (R : RulesTable) (sr : SortFn) (next : CQ)
    (token : List (List Selector)) (options : InternalOptions)
    (context : Option NormCtx) : CQ :=
  let opts : InternalOptions :=
    ⟨options.adapter, options.xmlMode, options.strict, some next, none⟩
  (compileToken R sr token opts context).query

/-- Evaluation of a compiled query at an element, relative to a fixed adapter
(every derived option set in `compile.ts` reuses the same adapter object) and
an interpretation `rs` of the external leaf builders.  The slot write of the
`hasCtx` closure is a side channel feeding nested `:scope` leaf builders and
is not itself observable in this pure evaluation. -/
def evalCQ (a : Adapter) (rs : Selector → (Elem → Bool) → Elem → Bool) :
    CQ → Elem → Bool
  | .trueFunc => fun _ => true
  | .falseFunc => fun _ => false
  | .base next =>
      let nv := evalCQ a rs next
      fun e => a.isTagFn e && nv e
  | .combine x y =>
      let xv := evalCQ a rs x
      let yv := evalCQ a rs y
      fun e => xv e || yv e
  | .ruleApp r p =>
      let pv := evalCQ a rs p
      fun e => rs r pv e
  | .notC f n =>
      let fv := evalCQ a rs f
      let nv := evalCQ a rs n
      fun e => !fv e && nv e
  | .hasChild n =>
      let nv := evalCQ a rs n
      fun e => (a.getChildrenFn e).any a.isTagFn && nv e
  | .hasCtx f n =>
      let fv := evalCQ a rs f
      let nv := evalCQ a rs n
      fun e => nv e && a.existsOneFn fv (a.getChildrenFn e)
  | .hasPlain f n =>
      let fv := evalCQ a rs f
      let nv := evalCQ a rs n
      fun e => nv e && a.existsOneFn fv (a.getChildrenFn e)

/-! ### Concrete instances used to evaluate the theorems on closed inputs -/

/-- A leaf-builder table that records every application syntactically. -/
def cTable : RulesTable := fun rule previous _ _ => CQ.ruleApp rule previous

/-- Modelled from the spec: the leaf-builder table `general.ts` is not under
`src/`.  §8 requires that a group whose net effect is unconditionally true
collapse to the sentinel, which is the behaviour of the universal selector's
builder (it imposes no condition and returns the continuation unchanged);
every other kind is recorded syntactically. -/
def univTable : RulesTable := fun rule previous _ _ =>
  match rule with
  | Selector.universal => previous
  | _ => CQ.ruleApp rule previous

/-- The identity instance of the external sorting pass. -/
def idSort : SortFn := fun l => l

/-- An adapter for closed evaluations: childless nodes without parents. -/
def bareAdapter : Adapter :=
  ⟨fun _ => true, fun _ => none, fun _ => [], fun _ _ => false⟩

/-- An adapter for closed evaluations in which every node has a parent. -/
def parentAdapter : Adapter :=
  ⟨fun _ => true, fun _ => some (Elem.node 99), fun _ => [], fun _ _ => false⟩

/-- Plain options: no flags, no root override, no context. -/
def baseOpts : InternalOptions := ⟨bareAdapter, false, false, none, none⟩

/-- Options over `parentAdapter` with nothing else set. -/
def parentOpts : InternalOptions := ⟨parentAdapter, false, false, none, none⟩

/-- Strict-mode options. -/
def strictOpts : InternalOptions := ⟨bareAdapter, false, true, none, none⟩

/-- Specification-side comparison variant of `compileToken` that never
performs the flexible-descendant substitution (each group is compiled
exactly as absolutized). -/
def compileTokenNoFlex (R : RulesTable) (sr : SortFn)
    (token : List (List Selector)) (options : InternalOptions)
    (context : Option NormCtx) : CompiledQueryFn :=
  let tok := processedToken sr token options context
  let ctx := normalizedCtx options context
  ⟨(tok.map (fun rules => compileRules R rules options ctx)).foldl
      reduceRules CQ.falseFunc,
    some (tok.any (groupFlag (isArrayCtx context)))⟩

/-- `options` whose root-predicate override is the never-matches sentinel
(used to express a rule-chain fold whose running predicate is already the
never-matches sentinel). -/
def withRootFalse (options : InternalOptions) : InternalOptions :=
  ⟨options.adapter, options.xmlMode, options.strict, some CQ.falseFunc,
    options.context⟩

/-- A one-element context array holding an anchorable node. -/
def notCtx : NormCtx := NormCtx.arrayCtx [CtxVal.elem (Elem.node 0)]

/-- Options that supply a context only through the `options.context` field,
as an array. -/
def arrayCtxOpts : InternalOptions :=
  ⟨parentAdapter, false, false, none,
    some (NormCtx.arrayCtx [CtxVal.elem (Elem.node 0)])⟩

/-- Options carrying a root override and an options-context, used to check
that `filters.not` ignores both fields. -/
def noisyOpts : InternalOptions :=
  ⟨bareAdapter, false, false, some CQ.trueFunc, some (NormCtx.bareElem (Elem.node 7))⟩

/-! ### Helper lemmas -/

theorem isFalseFunc_iff (x : CQ) : isFalseFunc x = true ↔ x = CQ.falseFunc := by
  cases x <;> simp [isFalseFunc]

theorem isTrueFunc_iff (x : CQ) : isTrueFunc x = true ↔ x = CQ.trueFunc := by
  cases x <;> simp [isTrueFunc]

theorem reduceRules_right_false (a : CQ) : reduceRules a CQ.falseFunc = a := by
  simp [reduceRules, isFalseFunc]

theorem reduceRules_left_false (b : CQ) : reduceRules CQ.falseFunc b = b := by
  cases b <;> simp [reduceRules, isFalseFunc, isTrueFunc]

theorem reduceRules_right_true (a : CQ) : reduceRules a CQ.trueFunc = CQ.trueFunc := by
  cases a <;> simp [reduceRules, isFalseFunc, isTrueFunc]

theorem reduceRules_left_true (b : CQ) : reduceRules CQ.trueFunc b = CQ.trueFunc := by
  simp [reduceRules, isTrueFunc]

theorem reduceRules_combine (a b : CQ) (ha1 : a ≠ CQ.trueFunc) (ha2 : a ≠ CQ.falseFunc)
    (hb1 : b ≠ CQ.trueFunc) (hb2 : b ≠ CQ.falseFunc) :
    reduceRules a b = CQ.combine a b := by
  have h1 : isFalseFunc b = false := by
    cases b <;> simp_all [isFalseFunc]
  have h2 : isTrueFunc a = false := by
    cases a <;> simp_all [isTrueFunc]
  have h3 : isFalseFunc a = false := by
    cases a <;> simp_all [isFalseFunc]
  have h4 : isTrueFunc b = false := by
    cases b <;> simp_all [isTrueFunc]
  simp [reduceRules, h1, h2, h3, h4]

theorem foldl_reduceRules_from_true (l : List CQ) :
    l.foldl reduceRules CQ.trueFunc = CQ.trueFunc := by
  induction l with
  | nil => rfl
  | cons x xs ih => simpa [reduceRules_left_true] using ih

theorem foldl_reduceRules_mem_true (l : List CQ) (acc : CQ)
    (h : CQ.trueFunc ∈ l) : l.foldl reduceRules acc = CQ.trueFunc := by
  induction l generalizing acc with
  | nil => cases h
  | cons x xs ih =>
      rcases List.mem_cons.mp h with hx | hx
      · subst hx
        simpa [reduceRules_right_true] using foldl_reduceRules_from_true xs
      · exact ih _ hx

theorem isAdjacentTok_iff (s : Selector) :
    isAdjacentTok s = true ↔ s = Selector.adjacent := by
  cases s <;> simp [isAdjacentTok]

theorem isSiblingTok_iff (s : Selector) :
    isSiblingTok s = true ↔ s = Selector.sibling := by
  cases s <;> simp [isSiblingTok]

theorem isDescendantTok_iff (s : Selector) :
    isDescendantTok s = true ↔ s = Selector.descendant := by
  cases s <;> simp [isDescendantTok]

theorem foldl_ruleStep_false (R : RulesTable) (options : InternalOptions)
    (ctx : Option NormCtx) (l : List Selector) :
    l.foldl (ruleStep R options ctx) CQ.falseFunc = CQ.falseFunc := by
  induction l with
  | nil => rfl
  | cons x xs ih => simpa [ruleStep, isFalseFunc] using ih

theorem compileToken_query_eq (R : RulesTable) (sr : SortFn)
    (token : List (List Selector)) (options : InternalOptions)
    (context : Option NormCtx) :
    (compileToken R sr token options context).query
      = ((processedToken sr token options context).map
          (fun rules => compileRules R (adjustGroup (isArrayCtx context) rules)
            options (normalizedCtx options context))).foldl
          reduceRules CQ.falseFunc := rfl

theorem compileToken_flag_eq (R : RulesTable) (sr : SortFn)
    (token : List (List Selector)) (options : InternalOptions)
    (context : Option NormCtx) :
    (compileToken R sr token options context).shouldTestNextSiblings
      = some ((processedToken sr token options context).any
          (groupFlag (isArrayCtx context))) := rfl

theorem compileTokenNoFlex_query_eq (R : RulesTable) (sr : SortFn)
    (token : List (List Selector)) (options : InternalOptions)
    (context : Option NormCtx) :
    (compileTokenNoFlex R sr token options context).query
      = ((processedToken sr token options context).map
          (fun rules => compileRules R rules options
            (normalizedCtx options context))).foldl reduceRules CQ.falseFunc := rfl

theorem compileTokenNoFlex_flag_eq (R : RulesTable) (sr : SortFn)
    (token : List (List Selector)) (options : InternalOptions)
    (context : Option NormCtx) :
    (compileTokenNoFlex R sr token options context).shouldTestNextSiblings
      = some ((processedToken sr token options context).any
          (groupFlag (isArrayCtx context))) := rfl

mutual

theorem includesScopePseudo_iff (s : Selector) :
    includesScopePseudo s = true ↔ ScopeIn s := by
  cases s with
  | pseudo name data =>
      cases data with
      | nullArg =>
          simp only [includesScopePseudo, Bool.or_false, decide_eq_true_eq]
          constructor
          · intro h
            subst h
            exact ScopeIn.scopeNode _
          · intro h
            cases h
            rfl
      | groups gs =>
          constructor
          · intro h
            simp only [includesScopePseudo] at h
            rw [Bool.or_eq_true] at h
            rcases h with h1 | h1
            · have hname : name = "scope" := by simpa using h1
              subst hname
              exact ScopeIn.scopeNode _
            · rcases (groupsHaveScope_iff gs).mp h1 with ⟨g, hg, s', hs', hsc⟩
              exact ScopeIn.nested name gs g s' hg hs' hsc
          · intro h
            cases h with
            | scopeNode => simp [includesScopePseudo]
            | nested name gs g s' hg hs' hsc =>
                have hgs : groupsHaveScope gs = true :=
                  (groupsHaveScope_iff gs).mpr ⟨g, hg, s', hs', hsc⟩
                simp [includesScopePseudo, hgs]
  | universal => exact ⟨fun h => by simp [includesScopePseudo] at h, fun h => by cases h⟩
  | tag n => exact ⟨fun h => by simp [includesScopePseudo] at h, fun h => by cases h⟩
  | attrib p => exact ⟨fun h => by simp [includesScopePseudo] at h, fun h => by cases h⟩
  | descendant => exact ⟨fun h => by simp [includesScopePseudo] at h, fun h => by cases h⟩
  | flexibleDescendant =>
      exact ⟨fun h => by simp [includesScopePseudo] at h, fun h => by cases h⟩
  | child => exact ⟨fun h => by simp [includesScopePseudo] at h, fun h => by cases h⟩
  | parent => exact ⟨fun h => by simp [includesScopePseudo] at h, fun h => by cases h⟩
  | sibling => exact ⟨fun h => by simp [includesScopePseudo] at h, fun h => by cases h⟩
  | adjacent => exact ⟨fun h => by simp [includesScopePseudo] at h, fun h => by cases h⟩

theorem groupsHaveScope_iff (gs : SelectorGroups) :
    groupsHaveScope gs = true ↔
      ∃ g ∈ gs.toList, ∃ s ∈ g.toList, ScopeIn s := by
  cases gs with
  | nil => simp [groupsHaveScope, SelectorGroups.toList]
  | cons g gs =>
      simp only [groupsHaveScope, SelectorGroups.toList, Bool.or_eq_true]
      rw [chainHasScope_iff g, groupsHaveScope_iff gs]
      constructor
      · rintro (⟨s', hs', h⟩ | ⟨g', hg', h⟩)
        · exact ⟨g, List.mem_cons_self g _, s', hs', h⟩
        · exact ⟨g', List.mem_cons_of_mem g hg', h⟩
      · rintro ⟨g', hg', s', hs', h⟩
        rcases List.mem_cons.mp hg' with rfl | hg'
        · exact Or.inl ⟨s', hs', h⟩
        · exact Or.inr ⟨g', hg', s', hs', h⟩

theorem chainHasScope_iff (g : SelectorChain) :
    chainHasScope g = true ↔ ∃ s ∈ g.toList, ScopeIn s := by
  cases g with
  | nil => simp [chainHasScope, SelectorChain.toList]
  | cons s g =>
      simp only [chainHasScope, SelectorChain.toList, Bool.or_eq_true]
      rw [includesScopePseudo_iff s, chainHasScope_iff g]
      constructor
      · rintro (h | ⟨s', hs', h⟩)
        · exact ⟨s, List.mem_cons_self s _, h⟩
        · exact ⟨s', List.mem_cons_of_mem s hs', h⟩
      · rintro ⟨s', hs', h⟩
        rcases List.mem_cons.mp hs' with rfl | hs'
        · exact Or.inl h
        · exact Or.inr ⟨s', hs', h⟩

end

theorem any_includesScopePseudo_iff (g : List Selector) :
    g.any includesScopePseudo = true ↔ ∃ s ∈ g, ScopeIn s := by
  rw [List.any_eq_true]
  constructor
  · rintro ⟨s, hs, h⟩
    exact ⟨s, hs, (includesScopePseudo_iff s).mp h⟩
  · rintro ⟨s, hs, h⟩
    exact ⟨s, hs, (includesScopePseudo_iff s).mpr h⟩

theorem groupFlag_eq_true_iff (iac : Bool) (g : List Selector) :
    groupFlag iac g = true ↔
      ∃ first second rest, g = first :: second :: rest
        ∧ isScopePseudoTok first = true
        ∧ (second = Selector.adjacent ∨ second = Selector.sibling) := by
  cases g with
  | nil => simp [groupFlag]
  | cons first g' =>
      cases g' with
      | nil => simp [groupFlag]
      | cons second rest =>
          constructor
          · intro h
            simp only [groupFlag] at h
            split_ifs at h with h1 h2 h3
            refine ⟨first, second, rest, rfl, ?_, ?_⟩
            · cases hh : isScopePseudoTok first
              · simp [hh] at h1
              · rfl
            · rw [Bool.or_eq_true] at h3
              rcases h3 with h4 | h4
              · exact Or.inl ((isAdjacentTok_iff second).mp h4)
              · exact Or.inr ((isSiblingTok_iff second).mp h4)
          · rintro ⟨f, s, r, heq, hscope, hs⟩
            injection heq with e1 e2
            injection e2 with e2a e2b
            subst e1
            subst e2a
            have hdesc : isDescendantTok second = false := by
              rcases hs with rfl | rfl <;> rfl
            have hadj : (isAdjacentTok second || isSiblingTok second) = true := by
              rcases hs with rfl | rfl <;> rfl
            simp [groupFlag, hscope, hdesc, hadj]

theorem adjustGroup_false (g : List Selector) : adjustGroup false g = g := by
  cases g with
  | nil => rfl
  | cons first g' =>
      cases g' with
      | nil => rfl
      | cons second rest =>
          by_cases h : isScopePseudoTok first = true
          · simp [adjustGroup, h]
          · simp [adjustGroup, h]

/-! ### Claims -/

/-- Claim C6: the OR-reduction of `reduceRules` returns the other operand
itself when one operand is the never-matches sentinel, short-circuits to the
always-matches sentinel (with no new closure) when one operand is that
sentinel, and otherwise builds the short-circuiting OR closure over the two
operands in order — its value is the disjunction, it ignores the right
operand whenever the left one is true, and it reduces to the right operand
whenever the left one is false. -/
theorem reduceRules_c6 (a b : CQ) :
    reduceRules a CQ.falseFunc = a
    ∧ reduceRules CQ.falseFunc b = b
    ∧ reduceRules a CQ.trueFunc = CQ.trueFunc
    ∧ reduceRules CQ.trueFunc b = CQ.trueFunc
    ∧ (a ≠ CQ.trueFunc → a ≠ CQ.falseFunc → b ≠ CQ.trueFunc → b ≠ CQ.falseFunc →
        reduceRules a b = CQ.combine a b
        ∧ (∀ A rs e, evalCQ A rs (CQ.combine a b) e
            = (evalCQ A rs a e || evalCQ A rs b e))
        ∧ (∀ A rs e, evalCQ A rs a e = true →
            ∀ b', evalCQ A rs (CQ.combine a b) e = evalCQ A rs (CQ.combine a b') e)
        ∧ (∀ A rs e, evalCQ A rs a e = false →
            evalCQ A rs (CQ.combine a b) e = evalCQ A rs b e)) := by
  refine ⟨reduceRules_right_false a, reduceRules_left_false b,
    reduceRules_right_true a, reduceRules_left_true b, ?_⟩
  intro ha1 ha2 hb1 hb2
  refine ⟨reduceRules_combine a b ha1 ha2 hb1 hb2, ?_, ?_, ?_⟩
  · intro A rs e
    simp [evalCQ]
  · intro A rs e h b'
    simp [evalCQ, h]
  · intro A rs e h
    simp [evalCQ, h]

/-- Witness for C6 at two concrete non-sentinel operands. -/
theorem reduceRules_c6_witness :
    reduceRules (CQ.ruleApp Selector.child CQ.trueFunc)
        (CQ.ruleApp Selector.sibling CQ.trueFunc)
      = CQ.combine (CQ.ruleApp Selector.child CQ.trueFunc)
          (CQ.ruleApp Selector.sibling CQ.trueFunc) :=
  ((reduceRules_c6 (CQ.ruleApp Selector.child CQ.trueFunc)
        (CQ.ruleApp Selector.sibling CQ.trueFunc)).2.2.2.2
      (fun h => CQ.noConfusion h) (fun h => CQ.noConfusion h)
      (fun h => CQ.noConfusion h) (fun h => CQ.noConfusion h)).1

/-- Claim C7: `compileRules` folds the node sequence left to right, starting
from the caller-supplied root-predicate override when present and otherwise
from the always-matches sentinel; once the running predicate is the
never-matches sentinel, the remaining nodes are folded without invoking any
leaf builder (the outcome is the never-matches sentinel for every leaf table
and every remaining node list), and the whole chain yields the never-matches
sentinel. -/
theorem compileRules_c7 (R R2 : RulesTable) (options : InternalOptions)
    (ctx : Option NormCtx) (rules : List Selector)
    (h : compileRules R rules options ctx = CQ.falseFunc) :
    compileRules R [] options ctx
        = (match options.rootFunc with
           | some f => f
           | none => CQ.trueFunc)
    ∧ (∀ rules3 r, compileRules R (rules3 ++ [r]) options ctx
        = (if isFalseFunc (compileRules R rules3 options ctx) then CQ.falseFunc
           else R r (compileRules R rules3 options ctx) options ctx))
    ∧ (∀ rest, compileRules R2 rest (withRootFalse options) ctx = CQ.falseFunc)
    ∧ (∀ rest, compileRules R (rules ++ rest) options ctx = CQ.falseFunc) := by
  refine ⟨?_, ?_, ?_, ?_⟩
  · cases hr : options.rootFunc <;>
      simp [compileRules, rootOrTrue, hr]
  · intro rules3 r
    simp [compileRules, List.foldl_append, ruleStep]
  · intro rest
    have : rootOrTrue (withRootFalse options) = CQ.falseFunc := rfl
    simpa [compileRules, this] using
      foldl_ruleStep_false R2 (withRootFalse options) ctx rest
  · intro rest
    have hfold : rules.foldl (ruleStep R options ctx) (rootOrTrue options)
        = CQ.falseFunc := h
    simpa [compileRules, List.foldl_append, hfold] using
      foldl_ruleStep_false R options ctx rest

/-- Witness for C7: a chain whose first node compiles to the never-matches
sentinel short-circuits past the rest. -/
theorem compileRules_c7_witness :
    compileRules (fun _ _ _ _ => CQ.falseFunc)
        ([Selector.universal] ++ [Selector.child]) baseOpts none
      = CQ.falseFunc :=
  (compileRules_c7 (fun _ _ _ _ => CQ.falseFunc) cTable baseOpts none
      [Selector.universal] rfl).2.2.2 [Selector.child]

/-- Claim C1 (counterexample): a group whose first node is the child
combinator — a traversal other than descendant — is NOT left unchanged by
the absolutizer even with no context supplied: the explicit `:scope` filter
node is prepended to it (the first branch of the if-chain falls through to
the `:scope` unshift). -/
theorem absolutize_c1_counterexample :
    absolutize [[Selector.child, Selector.tag "d"]] baseOpts none
        = [[SCOPE_TOKEN, Selector.child, Selector.tag "d"]]
    ∧ ([SCOPE_TOKEN, Selector.child, Selector.tag "d"] : List Selector)
        ≠ [Selector.child, Selector.tag "d"] := by
  refine ⟨rfl, ?_⟩
  intro h
  have := congrArg List.length h
  simp at this

/-- Claim C1 (amended): a group whose first node is a traversal other than
descendant gets exactly the explicit `:scope` filter node prepended (no
descendant marker), regardless of context; the descendant marker is
prepended only for groups implicitly scoped by a supplied context, so with
no usable context every other group is left unchanged. -/
theorem absolutize_c1_amended (options : InternalOptions) (ctx : Option NormCtx)
    (t : Selector) (rest g : List Selector)
    (h1 : isTraversal t = true) (h2 : isDescendantTok t = false) :
    absolutize [t :: rest] options ctx = [SCOPE_TOKEN :: t :: rest]
    ∧ (hasContextB options.adapter ctx = false →
        absolutize [g] options ctx
          = [if startsWithNonDescTraversal g then SCOPE_TOKEN :: g else g]) := by
  constructor
  · simp [absolutize, absolutizeGroup, startsWithNonDescTraversal, h1, h2]
  · intro hctx
    simp only [absolutize, List.map, absolutizeGroup, hctx, Bool.false_and]
    split_ifs with hs hf
    · rfl
    · exact hf.elim
    · rfl

/-- Witness for C1 (amended): a leading sibling combinator receives exactly
the `:scope` node; a plain tag group stays unchanged without a context. -/
theorem absolutize_c1_amended_witness :
    absolutize [[Selector.sibling]] baseOpts none = [[SCOPE_TOKEN, Selector.sibling]]
    ∧ absolutize [[Selector.tag "z"]] baseOpts none = [[Selector.tag "z"]] := by
  refine ⟨(absolutize_c1_amended baseOpts none Selector.sibling [] [Selector.tag "z"]
      rfl rfl).1, ?_⟩
  have h := (absolutize_c1_amended baseOpts none Selector.sibling [] [Selector.tag "z"]
      rfl rfl).2 rfl
  simpa [startsWithNonDescTraversal, isTraversal] using h

/-- Claim C9: the absolutizer's context test succeeds exactly for a
non-empty context array all of whose members are the designated placeholder
or have a parent per the adapter; and a group not starting with a
non-descendant traversal gets the descendant marker and then the `:scope`
node prepended exactly when such a context is present and no node of the
group — recursively, into nested pseudo-class arguments — is a `:scope`
pseudo-selector, and is left unchanged otherwise. -/
theorem absolutize_c9 (options : InternalOptions) (vs : List CtxVal)
    (ctx : Option NormCtx) (g : List Selector)
    (hg : startsWithNonDescTraversal g = false) :
    (hasContextB options.adapter (some (NormCtx.arrayCtx vs)) = true ↔
      (vs ≠ [] ∧ ∀ v ∈ vs,
        isPlaceholderVal v = true ∨ ctxParentTruthy options.adapter v = true))
    ∧ (hasContextB options.adapter ctx = true → (¬ ∃ s ∈ g, ScopeIn s) →
        absolutize [g] options ctx = [SCOPE_TOKEN :: DESCENDANT_TOKEN :: g])
    ∧ ((hasContextB options.adapter ctx = false ∨ (∃ s ∈ g, ScopeIn s)) →
        absolutize [g] options ctx = [g]) := by
  refine ⟨?_, ?_, ?_⟩
  · simp only [hasContextB, Bool.and_eq_true, Bool.not_eq_true', List.all_eq_true,
      Bool.or_eq_true]
    constructor
    · rintro ⟨he, hall⟩
      exact ⟨by simpa [List.isEmpty_iff] using he, hall⟩
    · rintro ⟨he, hall⟩
      exact ⟨by simpa [List.isEmpty_iff] using he, hall⟩
  · intro hctx hscope
    have hany : g.any includesScopePseudo = false := by
      cases hh : g.any includesScopePseudo
      · rfl
      · exact absurd ((any_includesScopePseudo_iff g).mp hh) hscope
    simp [absolutize, absolutizeGroup, hg, hctx, hany]
  · intro hc
    rcases hc with hctx | hscope
    · simp [absolutize, absolutizeGroup, hg, hctx]
    · have hany : g.any includesScopePseudo = true :=
        (any_includesScopePseudo_iff g).mpr hscope
      simp [absolutize, absolutizeGroup, hg, hany]

/-- Witness for C9: a one-element anchorable context array is treated as
present, and a scope-free tag group is rewritten to
`:scope <descendant> tag`. -/
theorem absolutize_c9_witness :
    absolutize [[Selector.tag "a"]] parentOpts (some notCtx)
      = [[SCOPE_TOKEN, DESCENDANT_TOKEN, Selector.tag "a"]] := by
  have h := (absolutize_c9 parentOpts [CtxVal.elem (Elem.node 0)] (some notCtx)
      [Selector.tag "a"] rfl).2.1 rfl
  refine (h ?_)
  rintro ⟨s, hs, hsc⟩
  rcases List.mem_singleton.mp hs with rfl
  cases hsc

/-- Claim C2 (counterexample): for the selector `+ p`, the token-level
compiler attaches `shouldTestNextSiblings = true` to its returned predicate,
but the predicate returned by the public `compile` entry point is the fresh
guard closure of `wrap`, which carries no `shouldTestNextSiblings`
attribute at all. -/
theorem compile_c2_counterexample :
    (compileToken cTable idSort [[Selector.adjacent, Selector.tag "p"]]
        baseOpts none).shouldTestNextSiblings = some true
    ∧ (compile cTable idSort [[Selector.adjacent, Selector.tag "p"]]
        baseOpts none).shouldTestNextSiblings = none :=
  ⟨rfl, rfl⟩

/-- Claim C2 (amended): the `shouldTestNextSiblings` flag is attached to the
predicate returned by the token-level compiler (`compileToken` /
`compileUnsafe`), not to the fresh wrapper closure returned by the public
`compile` entry point (which carries no such attribute); the attached flag
is true exactly when some group of the processed token (filtered, sorted,
absolutized) has a `:scope` pseudo as its first node immediately followed by
a sibling or adjacent traversal as its second node. -/
theorem compileToken_c2_amended (R : RulesTable) (sr : SortFn)
    (token : List (List Selector)) (options : InternalOptions)
    (context : Option NormCtx) :
    ∃ b : Bool,
      (compileToken R sr token options context).shouldTestNextSiblings = some b
      ∧ (compile R sr token options context).shouldTestNextSiblings = none
      ∧ (b = true ↔ ∃ g ∈ processedToken sr token options context,
          ∃ first second rest, g = first :: second :: rest
            ∧ isScopePseudoTok first = true
            ∧ (second = Selector.adjacent ∨ second = Selector.sibling)) := by
  refine ⟨(processedToken sr token options context).any
      (groupFlag (isArrayCtx context)), rfl, rfl, ?_⟩
  rw [List.any_eq_true]
  constructor
  · rintro ⟨g, hg, hf⟩
    exact ⟨g, hg, (groupFlag_eq_true_iff _ g).mp hf⟩
  · rintro ⟨g, hg, hf⟩
    exact ⟨g, hg, (groupFlag_eq_true_iff _ g).mpr hf⟩

/-- Witness for C2 (amended) at the selector `~ q`: the absolutizer prepends
`:scope` ahead of the sibling combinator, so the attached flag is true. -/
theorem compileToken_c2_amended_witness :
    (compileToken cTable idSort [[Selector.sibling, Selector.tag "q"]]
        baseOpts none).shouldTestNextSiblings = some true := by
  obtain ⟨b, hb, hw, hiff⟩ := compileToken_c2_amended cTable idSort
    [[Selector.sibling, Selector.tag "q"]] baseOpts none
  have hbt : b = true := by
    refine hiff.mpr ⟨[SCOPE_TOKEN, Selector.sibling, Selector.tag "q"], ?_,
      SCOPE_TOKEN, Selector.sibling, [Selector.tag "q"], rfl, rfl, Or.inr rfl⟩
    show _ ∈ processedToken idSort [[Selector.sibling, Selector.tag "q"]] baseOpts none
    rw [show processedToken idSort [[Selector.sibling, Selector.tag "q"]] baseOpts none
        = [[SCOPE_TOKEN, Selector.sibling, Selector.tag "q"]] from rfl]
    exact List.mem_singleton_self _
  rw [hb, hbt]

/-- Claim C10: the flexible-descendant substitution is gated on the
array-ness of the explicit context argument, captured before the
`options.context` override; when that argument is not an array — in
particular when a context is supplied only through `options.context`, even
as an array — `compileToken` equals the variant that never substitutes, and
every group (in particular one beginning with `:scope` followed by a plain
descendant) passes through the adjustment unchanged. -/
theorem compileToken_c10 (R : RulesTable) (sr : SortFn)
    (token : List (List Selector)) (options : InternalOptions)
    (context : Option NormCtx) (h : isArrayCtx context = false) :
    compileToken R sr token options context
        = compileTokenNoFlex R sr token options context
    ∧ ∀ g, adjustGroup (isArrayCtx context) g = g := by
  constructor
  · apply CompiledQueryFn.ext
    · rw [compileToken_query_eq, compileTokenNoFlex_query_eq, h]
      have hfun : (fun rules => compileRules R (adjustGroup false rules) options
            (normalizedCtx options context))
          = (fun rules => compileRules R rules options
              (normalizedCtx options context)) :=
        funext fun rules => by rw [adjustGroup_false]
      rw [hfun]
    · rw [compileToken_flag_eq, compileTokenNoFlex_flag_eq]
  · intro g
    rw [h, adjustGroup_false]

/-- Witness for C10: with the context supplied only as an array through
`options.context`, the group `:scope <descendant> a` keeps the plain
descendant token in the compiled chain. -/
theorem compileToken_c10_witness :
    compileToken cTable idSort [[SCOPE_TOKEN, DESCENDANT_TOKEN, Selector.tag "a"]]
        arrayCtxOpts none
      = compileTokenNoFlex cTable idSort
          [[SCOPE_TOKEN, DESCENDANT_TOKEN, Selector.tag "a"]] arrayCtxOpts none
    ∧ (compileToken cTable idSort [[SCOPE_TOKEN, DESCENDANT_TOKEN, Selector.tag "a"]]
        arrayCtxOpts none).query
      = CQ.ruleApp (Selector.tag "a")
          (CQ.ruleApp DESCENDANT_TOKEN (CQ.ruleApp SCOPE_TOKEN CQ.trueFunc)) :=
  ⟨(compileToken_c10 cTable idSort [[SCOPE_TOKEN, DESCENDANT_TOKEN, Selector.tag "a"]]
      arrayCtxOpts none rfl).1, rfl⟩

/-- Claim C5 (counterexample): for the universal selector — whose net effect
is unconditionally true — the token-level compiler does return the
always-matches sentinel, but the predicate the public `compile` entry hands
back to the caller is the freshly built tag-guard closure of `wrap`, which
is not the sentinel. -/
theorem compile_c5_counterexample :
    (compileToken univTable idSort [[Selector.universal]] baseOpts none).query
        = CQ.trueFunc
    ∧ (compile univTable idSort [[Selector.universal]] baseOpts none).query
        = CQ.base CQ.trueFunc
    ∧ (compile univTable idSort [[Selector.universal]] baseOpts none).query
        ≠ CQ.trueFunc := by
  refine ⟨rfl, rfl, ?_⟩
  intro h
  rw [show (compile univTable idSort [[Selector.universal]] baseOpts none).query
      = CQ.base CQ.trueFunc from rfl] at h
  exact CQ.noConfusion h

/-- Claim C5 (amended): whenever some group of the processed token compiles
to the always-matches sentinel, the token-level compiler returns exactly
that process-wide sentinel (never a fresh closure); the public `compile`
entry, by contrast, always returns a freshly built `wrap` guard closure and
therefore never the sentinel itself. -/
theorem compileToken_c5_amended (R : RulesTable) (sr : SortFn)
    (token : List (List Selector)) (options : InternalOptions)
    (context : Option NormCtx)
    (h : ∃ g ∈ processedToken sr token options context,
        compileRules R (adjustGroup (isArrayCtx context) g) options
          (normalizedCtx options context) = CQ.trueFunc) :
    (compileToken R sr token options context).query = CQ.trueFunc
    ∧ ∀ (R2 : RulesTable) (sr2 : SortFn) (token2 : List (List Selector))
        (options2 : InternalOptions) (context2 : Option NormCtx), ∃ q,
        (compile R2 sr2 token2 options2 context2).query = CQ.base q := by
  constructor
  · obtain ⟨g, hg, hc⟩ := h
    rw [compileToken_query_eq]
    exact foldl_reduceRules_mem_true _ _ (List.mem_map.mpr ⟨g, hg, hc⟩)
  · intro R2 sr2 token2 options2 context2
    exact ⟨(compileUnsafe R2 sr2 token2 options2 context2).query, rfl⟩

/-- Witness for C5 (amended) at the universal selector. -/
theorem compileToken_c5_amended_witness :
    (compileToken univTable idSort [[Selector.universal]] parentOpts none).query
      = CQ.trueFunc := by
  refine (compileToken_c5_amended univTable idSort [[Selector.universal]]
      parentOpts none ⟨[Selector.universal], ?_, rfl⟩).1
  rw [show processedToken idSort [[Selector.universal]] parentOpts none
      = [[Selector.universal]] from rfl]
  exact List.mem_singleton_self _

theorem filtersNot_body (R : RulesTable) (sr : SortFn) (next : CQ)
    (token : List (List Selector)) (options : InternalOptions)
    (context : Option NormCtx) :
    filtersNot R sr next token options context
      = if (derivedOpts options).strict &&
            (decide (token.length > 1) || token.any containsTraversal) then
          Except.error CompileError.strictModeViolation
        else if isFalseFunc
            (compileToken R sr token (derivedOpts options) context).query then
          Except.ok next
        else if isTrueFunc
            (compileToken R sr token (derivedOpts options) context).query then
          Except.ok CQ.falseFunc
        else
          Except.ok (CQ.notC
            (compileToken R sr token (derivedOpts options) context).query next) :=
  rfl

/-- Claim C3 (counterexample): the `:not` compiler does NOT drop the outer
context: with an anchorable context array supplied, the nested compilation
absolutizes its argument against that context (here even substituting the
flexible-descendant marker), so the result differs from the
no-context compilation of the same argument. -/
theorem filtersNot_c3_counterexample :
    filtersNot cTable idSort CQ.trueFunc [[Selector.tag "a"]] parentOpts (some notCtx)
        = Except.ok (CQ.notC (CQ.ruleApp (Selector.tag "a")
            (CQ.ruleApp FLEXIBLE_DESCENDANT_TOKEN
              (CQ.ruleApp SCOPE_TOKEN CQ.trueFunc))) CQ.trueFunc)
    ∧ filtersNot cTable idSort CQ.trueFunc [[Selector.tag "a"]] parentOpts none
        = Except.ok (CQ.notC (CQ.ruleApp (Selector.tag "a") CQ.trueFunc) CQ.trueFunc)
    ∧ filtersNot cTable idSort CQ.trueFunc [[Selector.tag "a"]] parentOpts (some notCtx)
        ≠ filtersNot cTable idSort CQ.trueFunc [[Selector.tag "a"]] parentOpts none := by
  refine ⟨rfl, rfl, ?_⟩
  intro h
  rw [show filtersNot cTable idSort CQ.trueFunc [[Selector.tag "a"]] parentOpts
        (some notCtx)
      = Except.ok (CQ.notC (CQ.ruleApp (Selector.tag "a")
          (CQ.ruleApp FLEXIBLE_DESCENDANT_TOKEN
            (CQ.ruleApp SCOPE_TOKEN CQ.trueFunc))) CQ.trueFunc) from rfl,
    show filtersNot cTable idSort CQ.trueFunc [[Selector.tag "a"]] parentOpts none
      = Except.ok (CQ.notC (CQ.ruleApp (Selector.tag "a") CQ.trueFunc)
          CQ.trueFunc) from rfl] at h
  simp [FLEXIBLE_DESCENDANT_TOKEN] at h

/-- Claim C3 (amended): the nested `:not` compilation runs under derived
options containing only the outer xmlMode, strict flag and adapter — the
root-predicate override and the `options.context` field are dropped, so the
result is invariant under those two fields — but the outer context argument
itself is forwarded unchanged to the nested compilation. -/
theorem filtersNot_c3_amended (R : RulesTable) (sr : SortFn) (next : CQ)
    (token : List (List Selector)) (options options2 : InternalOptions)
    (context : Option NormCtx)
    (h1 : options2.xmlMode = options.xmlMode)
    (h2 : options2.strict = options.strict)
    (h3 : options2.adapter = options.adapter) :
    filtersNot R sr next token options2 context
      = filtersNot R sr next token options context := by
  have h : derivedOpts options2 = derivedOpts options := by
    unfold derivedOpts
    rw [h1, h2, h3]
  unfold filtersNot
  rw [h]

/-- Witness for C3 (amended): a root override and an options-context on the
outer options do not change the result of `filters.not`. -/
theorem filtersNot_c3_amended_witness :
    filtersNot cTable idSort CQ.trueFunc [[Selector.tag "b"]] noisyOpts none
      = filtersNot cTable idSort CQ.trueFunc [[Selector.tag "b"]] baseOpts none :=
  filtersNot_c3_amended cTable idSort CQ.trueFunc [[Selector.tag "b"]]
    baseOpts noisyOpts none rfl rfl rfl

/-- Claim C4: with the strict flag set, compiling the argument of `:not`
fails with the strict-mode violation exactly when the argument has more
than one selector group or some group contains a traversal operator; with
the strict flag unset the same argument always compiles to a result. -/
theorem filtersNot_c4 (R : RulesTable) (sr : SortFn) (next : CQ)
    (token : List (List Selector)) (options : InternalOptions)
    (context : Option NormCtx) :
    (options.strict = true →
      (filtersNot R sr next token options context
          = Except.error CompileError.strictModeViolation
        ↔ (token.length > 1 ∨ token.any containsTraversal = true)))
    ∧ (options.strict = false →
        ∃ q, filtersNot R sr next token options context = Except.ok q) := by
  have hstrict : (derivedOpts options).strict = options.strict := rfl
  constructor
  · intro hs
    constructor
    · intro h
      by_contra hc
      push_neg at hc
      obtain ⟨hl, ht⟩ := hc
      have hl' : decide (token.length > 1) = false := by simpa using hl
      have ht' : token.any containsTraversal = false := by
        cases hh : token.any containsTraversal
        · rfl
        · exact absurd hh ht
      rw [filtersNot_body] at h
      rw [if_neg (by simp [hstrict, hl', ht'])] at h
      split_ifs at h
    · intro h
      rw [filtersNot_body, if_pos]
      rcases h with h | h
      · simp [hstrict, hs, h]
      · simp [hstrict, hs, h]
  · intro hs
    rw [filtersNot_body]
    rw [if_neg (by simp [hstrict, hs])]
    split_ifs <;> exact ⟨_, rfl⟩

/-- Witness for C4: `:not(> b)` (a group containing a traversal) fails under
strict mode and compiles under non-strict mode. -/
theorem filtersNot_c4_witness :
    filtersNot cTable idSort CQ.trueFunc [[Selector.child, Selector.tag "b"]]
        strictOpts none
      = Except.error CompileError.strictModeViolation
    ∧ ∃ q, filtersNot cTable idSort CQ.trueFunc [[Selector.child, Selector.tag "b"]]
        baseOpts none = Except.ok q :=
  ⟨((filtersNot_c4 cTable idSort CQ.trueFunc [[Selector.child, Selector.tag "b"]]
        strictOpts none).1 rfl).mpr (Or.inr rfl),
    (filtersNot_c4 cTable idSort CQ.trueFunc [[Selector.child, Selector.tag "b"]]
        baseOpts none).2 rfl⟩

theorem filtersHas_body (R : RulesTable) (sr : SortFn) (next : CQ)
    (token : List (List Selector)) (options : InternalOptions) :
    filtersHas R sr next token options
      = (if isFalseFunc (compileToken R sr token (derivedOpts options)
            (hasAllocatedContext token)).query then CQ.falseFunc
         else if isTrueFunc (compileToken R sr token (derivedOpts options)
            (hasAllocatedContext token)).query then CQ.hasChild next
         else
           match hasAllocatedContext token with
           | some _ => CQ.hasCtx (wrap (compileToken R sr token (derivedOpts options)
               (hasAllocatedContext token)).query options) next
           | none => CQ.hasPlain (wrap (compileToken R sr token (derivedOpts options)
               (hasAllocatedContext token)).query options) next) :=
  rfl

/-- Claim C8: `filters.has` allocates its one-slot placeholder context
exactly when the argument contains a traversal operator; a never-matches
compiled argument yields the never-matches sentinel; an always-matches
argument yields the closure that is true exactly when the element has at
least one tag child and the outer continuation holds; otherwise the result
is the closure requiring the outer continuation and then the existential
adapter search over the element's children with the tag-guarded compiled
argument — the slot-writing variant when the context was allocated, the
plain variant otherwise. -/
theorem filtersHas_c8 (R : RulesTable) (sr : SortFn) (next : CQ)
    (token : List (List Selector)) (options : InternalOptions) (func : CQ)
    (hfq : func = (compileToken R sr token (derivedOpts options)
        (hasAllocatedContext token)).query) :
    (hasAllocatedContext token
        = if token.any containsTraversal then
            some (NormCtx.arrayCtx [CtxVal.elem Elem.placeholder])
          else none)
    ∧ (func = CQ.falseFunc → filtersHas R sr next token options = CQ.falseFunc)
    ∧ (func = CQ.trueFunc →
        filtersHas R sr next token options = CQ.hasChild next
        ∧ ∀ A rs e, evalCQ A rs (CQ.hasChild next) e
            = ((A.getChildrenFn e).any A.isTagFn && evalCQ A rs next e))
    ∧ (func ≠ CQ.falseFunc → func ≠ CQ.trueFunc →
        filtersHas R sr next token options
          = (if token.any containsTraversal then CQ.hasCtx (CQ.base func) next
             else CQ.hasPlain (CQ.base func) next)) := by
  subst hfq
  refine ⟨rfl, ?_, ?_, ?_⟩
  · intro h
    rw [filtersHas_body, h]
    simp [isFalseFunc]
  · intro h
    constructor
    · rw [filtersHas_body, h]
      simp [isFalseFunc, isTrueFunc]
    · intro A rs e
      simp [evalCQ]
  · intro h1 h2
    rw [filtersHas_body]
    rw [if_neg (fun hh => h1 ((isFalseFunc_iff _).mp hh)),
      if_neg (fun hh => h2 ((isTrueFunc_iff _).mp hh))]
    cases hany : token.any containsTraversal <;>
      simp [hasAllocatedContext, hany, wrap]

/-- Witness for C8: `:has(a)` with a traversal-free argument compiles to the
plain existential closure over the tag-guarded argument. -/
theorem filtersHas_c8_witness :
    filtersHas cTable idSort CQ.trueFunc [[Selector.tag "a"]] baseOpts
      = CQ.hasPlain (CQ.base (CQ.ruleApp (Selector.tag "a") CQ.trueFunc))
          CQ.trueFunc := by
  have h := (filtersHas_c8 cTable idSort CQ.trueFunc [[Selector.tag "a"]] baseOpts
      (CQ.ruleApp (Selector.tag "a") CQ.trueFunc) rfl).2.2.2
    (fun hh => CQ.noConfusion hh) (fun hh => CQ.noConfusion hh)
  simpa [containsTraversal, isTraversal] using h

end CssSelect
